import Mathlib

/-!
Verification of the Yelix Hono OpenAPI layer (yelix-cloud/js-hono-deno).

The embedding follows the current framework snapshot of the repository
(the main `Hono.ts` with debug logging and `@yelix/openapi` imports, plus
`zod-to-openapi.ts`).  JavaScript strings are modelled as lists of
characters; JavaScript objects that the translator builds and mutates are
modelled as a small JSON value type with insertion-ordered fields.
-/

namespace Yelix

/-- JavaScript strings, modelled as lists of characters. -/
abbrev JsStr := List Char

/-- Whitespace recognised by `String.prototype.trim` (the ASCII subset that
can occur in route paths). -/
def jsIsWs (c : Char) : Bool :=
  c = ' ' || c = '\t' || c = '\n' || c = '\r' || c = '\x0b' || c = '\x0c'

/-- Drop leading whitespace (the left half of `trim`). -/
def trimLeft (l : JsStr) : JsStr := l.dropWhile jsIsWs

/-- Drop trailing whitespace (the right half of `trim`). -/
def trimRight (l : JsStr) : JsStr := (trimLeft l.reverse).reverse

/-- JavaScript `String.prototype.trim`. -/
def jsTrim (l : JsStr) : JsStr := trimRight (trimLeft l)

/-- JavaScript `String.prototype.split` with a one-character separator:
`"".split(s) = [""]`, separators delimit possibly empty chunks. -/
def jsSplit (sep : Char) : JsStr → List JsStr
  | [] => [[]]
  | c :: cs =>
    if c = sep then [] :: jsSplit sep cs
    else
      match jsSplit sep cs with
      | [] => [[c]]
      | s :: ss => (c :: s) :: ss

/-- JavaScript `Array.prototype.join` with a one-character separator. -/
def jsJoin (sep : Char) : List JsStr → JsStr
  | [] => []
  | [s] => s
  | s :: ss => s ++ sep :: jsJoin sep ss

/-- JavaScript `String.prototype.toUpperCase` on ASCII route methods. -/
def jsToUpper (l : JsStr) : JsStr := l.map Char.toUpper

/-- The private `mergePaths` of `YelixHono`: flatten-split every part on
`/`, drop segments that are empty or whitespace-only, trim the rest, rejoin
with `/` and prefix a single leading slash. -/
def mergePaths (parts : List JsStr) : JsStr :=
  let segments := (((parts.map (jsSplit '/')).flatten).filter
      (fun p => !p.isEmpty && !(jsTrim p).isEmpty)).map jsTrim
  '/' :: jsJoin '/' segments

/-- Closing a pending `:param` scan: an empty parameter run means the colon
did not match the `:([^/]+)` pattern and is kept verbatim, otherwise the
accumulated (reversed) run is wrapped in braces. -/
def closeParam (acc : JsStr) : JsStr :=
  if acc.isEmpty then [':'] else '{' :: (acc.reverse ++ ['}'])

/-- Scanner for `path.replace(/:([^/]+)/g, (_, p) => `{p}`)`: `none` is the
plain state, `some acc` means we are inside a parameter started by `:` with
`acc` holding the characters read so far, in reverse. -/
def convGo : Option JsStr → JsStr → JsStr
  | none, [] => []
  | none, c :: rest =>
    if c = ':' then convGo (some []) rest else c :: convGo none rest
  | some acc, [] => closeParam acc
  | some acc, c :: rest =>
    if c = '/' then closeParam acc ++ '/' :: convGo none rest
    else convGo (some (c :: acc)) rest

/-- The private `convertColonRoutesToBraces` of `YelixHono`. -/
def convertColonRoutesToBraces (p : JsStr) : JsStr := convGo none p

/-! Basic facts about the JavaScript string primitives. -/

theorem jsSplit_ne_nil (sep : Char) (l : JsStr) : jsSplit sep l ≠ [] := by
  cases l with
  | nil => simp [jsSplit]
  | cons c cs =>
    unfold jsSplit
    by_cases h : c = sep
    · simp [h]
    · simp only [if_neg h]
      cases jsSplit sep cs <;> simp

theorem jsSplit_sep_cons (sep : Char) (t : JsStr) :
    jsSplit sep (sep :: t) = [] :: jsSplit sep t := by
  simp [jsSplit]

theorem jsSplit_cons_of_ne {sep c : Char} (h : c ≠ sep) (t : JsStr) :
    jsSplit sep (c :: t) = (jsSplit sep t).modifyHead (c :: ·) := by
  cases htt : jsSplit sep t with
  | nil => exact absurd htt (jsSplit_ne_nil sep t)
  | cons s ss => simp only [jsSplit, if_neg h, htt, List.modifyHead]

theorem not_mem_of_mem_jsSplit {sep : Char} {l s : JsStr}
    (hs : s ∈ jsSplit sep l) : sep ∉ s := by
  induction l generalizing s with
  | nil =>
    simp [jsSplit] at hs
    simp [hs]
  | cons c cs ih =>
    by_cases h : c = sep
    · subst h
      rw [jsSplit_sep_cons] at hs
      rcases List.mem_cons.1 hs with h1 | h1
      · simp [h1]
      · exact ih h1
    · rw [jsSplit_cons_of_ne h] at hs
      cases htt : jsSplit sep cs with
      | nil => exact absurd htt (jsSplit_ne_nil sep cs)
      | cons s0 ss =>
        rw [htt] at hs
        simp only [List.modifyHead] at hs
        rcases List.mem_cons.1 hs with h1 | h1
        · subst h1
          intro hmem
          rcases List.mem_cons.1 hmem with h2 | h2
          · exact h h2.symm
          · exact ih (htt ▸ List.mem_cons_self s0 ss) h2
        · exact ih (htt ▸ List.mem_cons_of_mem s0 h1)

theorem jsSplit_of_not_mem {sep : Char} {s : JsStr} (h : sep ∉ s) :
    jsSplit sep s = [s] := by
  induction s with
  | nil => rfl
  | cons c cs ih =>
    have hc : c ≠ sep := by
      rintro rfl
      exact h (List.mem_cons_self c cs)
    rw [jsSplit_cons_of_ne hc, ih (fun hm => h (List.mem_cons_of_mem c hm))]
    rfl

theorem jsSplit_append_chunk {sep : Char} {chunk : JsStr} (t : JsStr) (h : sep ∉ chunk) :
    jsSplit sep (chunk ++ t) = (jsSplit sep t).modifyHead (chunk ++ ·) := by
  induction chunk with
  | nil =>
    simp only [List.nil_append]
    cases h2 : jsSplit sep t with
    | nil => exact absurd h2 (jsSplit_ne_nil sep t)
    | cons s ss => simp
  | cons c cs ih =>
    have hc : c ≠ sep := by
      rintro rfl
      exact h (List.mem_cons_self c cs)
    have hcs : sep ∉ cs := fun hm => h (List.mem_cons_of_mem c hm)
    rw [List.cons_append, jsSplit_cons_of_ne hc, ih hcs, List.modifyHead_modifyHead]
    rfl

theorem jsSplit_jsJoin {sep : Char} :
    ∀ (ss : List JsStr), ss ≠ [] → (∀ s ∈ ss, sep ∉ s) →
      jsSplit sep (jsJoin sep ss) = ss
  | [], h, _ => absurd rfl h
  | [s], _, h2 => by
    rw [show jsJoin sep [s] = s from rfl,
      jsSplit_of_not_mem (h2 s (by simp))]
  | s :: s2 :: ss, _, h2 => by
    have hs : sep ∉ s := h2 s (by simp)
    have ih := jsSplit_jsJoin (s2 :: ss) (by simp)
      (fun x hx => h2 x (List.mem_cons_of_mem s hx))
    rw [show jsJoin sep (s :: s2 :: ss) = s ++ sep :: jsJoin sep (s2 :: ss) from rfl,
      jsSplit_append_chunk _ hs, jsSplit_sep_cons, ih]
    simp

theorem trimLeft_cons_of_ws {c : Char} (h : jsIsWs c = true) (l : JsStr) :
    trimLeft (c :: l) = trimLeft l := by
  simp [trimLeft, List.dropWhile_cons, h]

theorem trimLeft_cons_of_not_ws {c : Char} (h : jsIsWs c = false) (l : JsStr) :
    trimLeft (c :: l) = c :: l := by
  simp [trimLeft, List.dropWhile_cons, h]

theorem trimLeft_idem (l : JsStr) : trimLeft (trimLeft l) = trimLeft l := by
  simp [trimLeft, List.dropWhile_idempotent]

theorem trimLeft_head_not_ws (l : JsStr) :
    trimLeft l = [] ∨ ∃ c cs, trimLeft l = c :: cs ∧ jsIsWs c = false := by
  induction l with
  | nil => left; rfl
  | cons c cs ih =>
    cases h : jsIsWs c with
    | true => rw [trimLeft_cons_of_ws h]; exact ih
    | false => exact Or.inr ⟨c, cs, trimLeft_cons_of_not_ws h cs, h⟩

theorem trimRight_cons (c : Char) (cs : JsStr) :
    trimRight (c :: cs) =
      if jsIsWs c && (trimRight cs).isEmpty then [] else c :: trimRight cs := by
  unfold trimRight trimLeft
  rw [show (c :: cs).reverse = cs.reverse ++ [c] from by simp, List.dropWhile_append]
  cases h : (List.dropWhile jsIsWs cs.reverse).isEmpty with
  | true =>
    have h3 : List.dropWhile jsIsWs cs.reverse = [] := List.isEmpty_iff.1 h
    cases hc : jsIsWs c with
    | false => simp [List.dropWhile_cons, hc, h3]
    | true => simp [List.dropWhile_cons, hc, h3]
  | false =>
    have h4 : (List.dropWhile jsIsWs cs.reverse).reverse.isEmpty = false := by
      cases h5 : List.dropWhile jsIsWs cs.reverse with
      | nil => rw [h5] at h; simp at h
      | cons x xs => simp [h5]
    simp [h, h4]

theorem trimRight_idem (l : JsStr) : trimRight (trimRight l) = trimRight l := by
  unfold trimRight
  rw [List.reverse_reverse, trimLeft_idem]

theorem jsTrim_idem (l : JsStr) : jsTrim (jsTrim l) = jsTrim l := by
  unfold jsTrim
  rcases trimLeft_head_not_ws l with h | ⟨c, cs, h, hc⟩
  · rw [h]
    rfl
  · rw [h, trimRight_cons, if_neg (by simp [hc]), trimLeft_cons_of_not_ws hc,
      trimRight_cons, trimRight_idem, if_neg (by simp [hc])]

theorem mem_of_mem_jsTrim {x : Char} {l : JsStr} (h : x ∈ jsTrim l) : x ∈ l := by
  unfold jsTrim trimRight trimLeft at h
  have h1 := List.mem_reverse.1 h
  have h2 := (List.dropWhile_sublist _).subset h1
  have h3 := List.mem_reverse.1 h2
  exact (List.dropWhile_sublist _).subset h3

/-- The segment list that `mergePaths` extracts from one path fragment. -/
def slashSegments (l : JsStr) : List JsStr :=
  ((jsSplit '/' l).filter (fun p => !p.isEmpty && !(jsTrim p).isEmpty)).map jsTrim

theorem slashSegments_facts {x s : JsStr} (h : s ∈ slashSegments x) :
    s ≠ [] ∧ jsTrim s = s ∧ '/' ∉ s := by
  unfold slashSegments at h
  rcases List.mem_map.1 h with ⟨p, hp, rfl⟩
  rcases List.mem_filter.1 hp with ⟨hps, hcond⟩
  have h2 : jsTrim p ≠ [] := by
    intro hnil
    have hie : (jsTrim p).isEmpty = true := by simp [hnil]
    rw [hie] at hcond
    simp at hcond
  refine ⟨h2, jsTrim_idem p, fun hmem => ?_⟩
  exact not_mem_of_mem_jsSplit hps (mem_of_mem_jsTrim hmem)

theorem slashSegments_canonical {S : List JsStr}
    (h : ∀ s ∈ S, s ≠ [] ∧ jsTrim s = s ∧ '/' ∉ s) :
    slashSegments ('/' :: jsJoin '/' S) = S := by
  unfold slashSegments
  rw [jsSplit_sep_cons]
  rcases hS : S with _ | ⟨s0, ss⟩
  · simp [jsJoin, jsSplit]
  · rw [← hS]
    have hne : S ≠ [] := by simp [hS]
    have hmem : ∀ s ∈ S, '/' ∉ s := fun s hs => (h s hs).2.2
    rw [jsSplit_jsJoin S hne hmem, List.filter_cons]
    simp only [List.isEmpty_nil, Bool.not_true, Bool.false_and, Bool.false_eq_true,
      reduceIte]
    have hfilter : S.filter (fun p => !p.isEmpty && !(jsTrim p).isEmpty) = S := by
      apply List.filter_eq_self.2
      intro s hs
      rcases h s hs with ⟨h1, h2, _⟩
      have hh1 : s.isEmpty = false := by
        cases s with
        | nil => exact absurd rfl h1
        | cons a as => rfl
      have hh2 : (jsTrim s).isEmpty = false := by
        rw [h2]; exact hh1
      simp [hh1, hh2]
    rw [hfilter]
    have hid : ∀ s ∈ S, jsTrim s = s := fun s hs => (h s hs).2.1
    conv_rhs => rw [← List.map_id S]
    exact List.map_congr_left hid

theorem mergePaths_two_eq (a b : JsStr) :
    mergePaths [a, b] = '/' :: jsJoin '/' (slashSegments a ++ slashSegments b) := by
  simp [mergePaths, slashSegments, List.filter_append]

theorem mergePaths_one_eq (a : JsStr) :
    mergePaths [a] = '/' :: jsJoin '/' (slashSegments a) := by
  simp [mergePaths, slashSegments]

theorem slashSegments_mergePaths_two (a b : JsStr) :
    slashSegments (mergePaths [a, b]) = slashSegments a ++ slashSegments b := by
  rw [mergePaths_two_eq]
  apply slashSegments_canonical
  intro s hs
  rcases List.mem_append.1 hs with h | h
  exacts [slashSegments_facts h, slashSegments_facts h]

/-- Specification-side definition of `mergeMountPath`, following the spec
words literally: split both inputs on `/`, discard empty segments, rejoin
with a single `/`, and prefix exactly one leading `/`. -/
def mergeMountPathClaim (a b : JsStr) : JsStr :=
  '/' :: jsJoin '/' ((jsSplit '/' a ++ jsSplit '/' b).filter (fun p => !p.isEmpty))

/-- Amended specification-side definition: like `mergeMountPathClaim`, but
segments are additionally trimmed and whitespace-only segments are
discarded, as the source filter `p && p.trim()` does. -/
def mergeMountPathTrimmed (a b : JsStr) : JsStr :=
  '/' :: jsJoin '/'
    (((jsSplit '/' a ++ jsSplit '/' b).filter (fun p => !(jsTrim p).isEmpty)).map jsTrim)

theorem mergePaths_two_spec (a b : JsStr) :
    mergePaths [a, b] = mergeMountPathTrimmed a b := by
  have hpt : ∀ p : JsStr, (!p.isEmpty && !(jsTrim p).isEmpty) = (!(jsTrim p).isEmpty) := by
    intro p
    cases p with
    | nil => rfl
    | cons c cs => simp
  unfold mergePaths mergeMountPathTrimmed
  simp only [List.map_cons, List.map_nil, List.flatten, List.append_nil]
  rw [List.filter_congr (fun x _ => hpt x)]

theorem mergePaths_assoc (a b c : JsStr) :
    mergePaths [mergePaths [a, b], c] = mergePaths [a, mergePaths [b, c]] := by
  rw [mergePaths_two_eq (mergePaths [a, b]) c, mergePaths_two_eq a (mergePaths [b, c]),
    slashSegments_mergePaths_two, slashSegments_mergePaths_two, List.append_assoc]

theorem mergePaths_remerge (a b : JsStr) :
    mergePaths [mergePaths [a, b]] = mergePaths [a, b] := by
  rw [mergePaths_one_eq, slashSegments_mergePaths_two, ← mergePaths_two_eq]

/-- A colon-style parameter segment: a path segment of the form `:name`
with a nonempty name. -/
def isColonParamSeg : JsStr → Bool
  | c :: _ :: _ => c = ':'
  | _ => false

/-- A path is in OpenAPI brace syntax when none of its slash-delimited
segments is a colon-style parameter segment. -/
def noColonParams (p : JsStr) : Bool :=
  (jsSplit '/' p).all (fun s => !isColonParamSeg s)

theorem isColonParamSeg_cons_ne {c : Char} (h : c ≠ ':') (s : JsStr) :
    isColonParamSeg (c :: s) = false := by
  cases s <;> simp [isColonParamSeg, h]

theorem noColonParams_single_chunk {s : JsStr} (h : '/' ∉ s)
    (h2 : isColonParamSeg s = false) : noColonParams s = true := by
  unfold noColonParams
  rw [jsSplit_of_not_mem h]
  simp [h2]

theorem noColonParams_slash_cons (t : JsStr) :
    noColonParams ('/' :: t) = noColonParams t := by
  unfold noColonParams
  rw [jsSplit_sep_cons]
  simp [isColonParamSeg]

theorem noColonParams_cons_of_ne {c : Char} {t : JsStr} (hs : c ≠ '/') (hc : c ≠ ':')
    (h : noColonParams t = true) : noColonParams (c :: t) = true := by
  unfold noColonParams at h ⊢
  rw [jsSplit_cons_of_ne hs]
  cases h2 : jsSplit '/' t with
  | nil => exact absurd h2 (jsSplit_ne_nil '/' t)
  | cons s ss =>
    rw [h2] at h
    simp only [List.all_cons, Bool.and_eq_true] at h
    simp [List.modifyHead, isColonParamSeg_cons_ne hc, h.1, h.2]

theorem noColonParams_lone_colon {t : JsStr} (h : noColonParams t = true) :
    noColonParams (':' :: '/' :: t) = true := by
  unfold noColonParams at h ⊢
  rw [jsSplit_cons_of_ne (by decide), jsSplit_sep_cons]
  simp only [List.modifyHead, List.all_cons, Bool.and_eq_true]
  exact ⟨by decide, h⟩

theorem noColonParams_chunk_slash {chunk t : JsStr}
    (hsl : '/' ∉ chunk) (hcs : isColonParamSeg chunk = false)
    (h : noColonParams t = true) : noColonParams (chunk ++ '/' :: t) = true := by
  unfold noColonParams at h ⊢
  rw [jsSplit_append_chunk _ hsl, jsSplit_sep_cons]
  simp only [List.modifyHead, List.append_nil, List.all_cons, Bool.and_eq_true]
  exact ⟨by simp [hcs], h⟩

theorem closeParam_props {acc : JsStr} (hne : ¬acc.isEmpty) (hsl : '/' ∉ acc) :
    closeParam acc ≠ [] ∧ '/' ∉ closeParam acc ∧
      isColonParamSeg (closeParam acc) = false := by
  unfold closeParam
  rw [if_neg hne]
  refine ⟨by simp, ?_, isColonParamSeg_cons_ne (by decide) _⟩
  intro hmem
  rcases List.mem_cons.1 hmem with h1 | h1
  · exact absurd h1.symm (by decide)
  rcases List.mem_append.1 h1 with h2 | h2
  · exact hsl (List.mem_reverse.1 h2)
  · rcases List.mem_singleton.1 h2 with h3
    exact absurd h3 (by decide)

theorem convGo_noColon (p : JsStr) : ∀ (mode : Option JsStr),
    (∀ acc, mode = some acc → '/' ∉ acc) →
      noColonParams (convGo mode p) = true := by
  induction p with
  | nil =>
    intro mode hmode
    cases mode with
    | none => decide
    | some acc =>
      show noColonParams (closeParam acc) = true
      by_cases hacc : acc.isEmpty
      · have h0 : acc = [] := List.isEmpty_iff.1 hacc
        subst h0
        decide
      · rcases closeParam_props hacc (hmode acc rfl) with ⟨_, hsl, hcs⟩
        exact noColonParams_single_chunk hsl hcs
  | cons c rest ih =>
    intro mode hmode
    cases mode with
    | none =>
      by_cases hc : c = ':'
      · subst hc
        show noColonParams (if (':' : Char) = ':' then convGo (some []) rest
          else ':' :: convGo none rest) = true
        rw [if_pos rfl]
        exact ih (some []) (by rintro acc ⟨rfl⟩; simp)
      · show noColonParams (if c = ':' then convGo (some []) rest
          else c :: convGo none rest) = true
        rw [if_neg hc]
        by_cases hcs : c = '/'
        · subst hcs
          rw [noColonParams_slash_cons]
          exact ih none (by rintro acc ⟨⟩)
        · exact noColonParams_cons_of_ne hcs hc (ih none (by rintro acc ⟨⟩))
    | some acc =>
      have hsl : '/' ∉ acc := hmode acc rfl
      by_cases hc : c = '/'
      · subst hc
        show noColonParams (if ('/' : Char) = '/' then
          closeParam acc ++ '/' :: convGo none rest
          else convGo (some ('/' :: acc)) rest) = true
        rw [if_pos rfl]
        have htail : noColonParams (convGo none rest) = true :=
          ih none (by rintro acc2 ⟨⟩)
        by_cases hacc : acc.isEmpty
        · have h0 : acc = [] := List.isEmpty_iff.1 hacc
          subst h0
          rw [show closeParam [] = [':'] from rfl,
            show ([':'] : JsStr) ++ '/' :: convGo none rest
              = ':' :: '/' :: convGo none rest from rfl]
          exact noColonParams_lone_colon htail
        · rcases closeParam_props hacc hsl with ⟨_, hsl2, hcs2⟩
          exact noColonParams_chunk_slash hsl2 hcs2 htail
      · show noColonParams (if c = '/' then closeParam acc ++ '/' :: convGo none rest
          else convGo (some (c :: acc)) rest) = true
        rw [if_neg hc]
        refine ih (some (c :: acc)) ?_
        rintro acc2 ⟨rfl⟩
        intro hmem
        rcases List.mem_cons.1 hmem with h1 | h1
        · exact hc h1.symm
        · exact hsl h1

/-- Every output of the colon-to-brace conversion is free of colon-style
parameter segments. -/
theorem noColonParams_convert (p : JsStr) :
    noColonParams (convertColonRoutesToBraces p) = true :=
  convGo_noColon p none (by rintro acc ⟨⟩)

example : convertColonRoutesToBraces "/items/:itemId".data = "/items/{itemId}".data := by decide

/-! JavaScript values built and mutated by the schema translator, modelled
as JSON-like trees whose objects keep insertion-ordered fields. -/

/-- A JavaScript value: the `undef` constructor stands for `undefined`,
which JavaScript object literals may hold as an explicit property value. -/
inductive JVal where
  | str (s : String)
  | num (q : Rat)
  | bool (b : Bool)
  | null
  | undef
  | arr (elems : List JVal)
  | obj (fields : List (String × JVal))

/-- Property read on an ordered field list. -/
def lookupField : List (String × JVal) → String → Option JVal
  | [], _ => none
  | (k', v) :: rest, k => if k' = k then some v else lookupField rest k

/-- JavaScript property read `o[k]`: `none` for a missing property. -/
def jget (v : JVal) (k : String) : Option JVal :=
  match v with
  | .obj fields => lookupField fields k
  | _ => none

/-- Property write on an ordered field list: an existing key keeps its
position (JavaScript assignment semantics), a new key is appended. -/
def setField : List (String × JVal) → String → JVal → List (String × JVal)
  | [], k, v => [(k, v)]
  | (k', v') :: rest, k, v =>
    if k' = k then (k, v) :: rest else (k', v') :: setField rest k v

/-- JavaScript property write `o[k] = v` (a no-op on non-objects). -/
def jset (o : JVal) (k : String) (v : JVal) : JVal :=
  match o with
  | .obj fields => .obj (setField fields k v)
  | other => other

/-- Field removal for the JavaScript `delete` operator. -/
def delField : List (String × JVal) → String → List (String × JVal)
  | [], _ => []
  | (k', v) :: rest, k =>
    if k' = k then delField rest k else (k', v) :: delField rest k

/-- JavaScript `delete o[k]` (a no-op on non-objects). -/
def jdelete (o : JVal) (k : String) : JVal :=
  match o with
  | .obj fields => .obj (delField fields k)
  | other => other

/-- JavaScript `Object.assign(target, source)`: copy the source object
fields into the target in order; non-object sources contribute nothing. -/
def jsAssign (target source : JVal) : JVal :=
  match source with
  | .obj s => s.foldl (fun acc kv => jset acc kv.1 kv.2) target
  | _ => target

theorem lookupField_setField_same (fs : List (String × JVal)) (k : String) (v : JVal) :
    lookupField (setField fs k v) k = some v := by
  induction fs with
  | nil => simp [setField, lookupField]
  | cons kv rest ih =>
    obtain ⟨k', v'⟩ := kv
    by_cases h : k' = k
    · simp [setField, lookupField, h]
    · simp [setField, lookupField, h, ih]

theorem lookupField_setField_other {k' k : String} (h : k' ≠ k)
    (fs : List (String × JVal)) (v : JVal) :
    lookupField (setField fs k' v) k = lookupField fs k := by
  induction fs with
  | nil => simp [setField, lookupField, h]
  | cons kv rest ih =>
    obtain ⟨k0, v0⟩ := kv
    by_cases h0 : k0 = k'
    · simp [setField, lookupField, h0, h]
    · by_cases h1 : k0 = k
      · have h2 : ¬(k = k') := fun hh => h hh.symm
        simp [setField, lookupField, h0, h1, h2]
      · simp [setField, lookupField, h0, h1, ih]

theorem jget_jset_same (fs : List (String × JVal)) (k : String) (v : JVal) :
    jget (jset (.obj fs) k v) k = some v := by
  simp [jget, jset, lookupField_setField_same]

theorem jget_jset_other {k' k : String} (h : k' ≠ k)
    (fs : List (String × JVal)) (v : JVal) :
    jget (jset (.obj fs) k' v) k = jget (.obj fs) k := by
  simp [jget, jset, lookupField_setField_other h]

/-! The Zod validation-schema tree, as `zodSchemaToOpenAPISchema` reads it
through `_zod.def` / `_def`: one constructor per recognised `def.type` tag,
plus `noDef` for a schema whose definition object is missing and
`unrecognized` for every other tag. -/

/-- The nested `def` object a Zod 4 check may carry. -/
structure NestedCheckDef where
  format : Option String := none
  check : Option String := none

/-- One entry of `def.checks`, with the optional properties the translator
inspects; a JavaScript property that is absent (or not of the primitive
type the source tests with `typeof`) is `none`. -/
structure ZodCheck where
  isInt : Option Bool := none
  format : Option String := none
  minValue : Option Rat := none
  maxValue : Option Rat := none
  nestedDef : Option NestedCheckDef := none
  kind : Option String := none
  value : Option Rat := none
  inclusive : Option Bool := none
  regex : Option String := none
  minLength : Option Rat := none
  maxLength : Option Rat := none

/-- A Zod schema node.  `strS` additionally carries the schema-level
`minLength`/`maxLength` numbers and the `_zod.bag.format` tag that the
string branch reads; `arrS` carries the `exactLength`/`minLength`/
`maxLength` constraint values; `enumS` carries the `values`/`options`/
`entries` fallbacks. -/
inductive ZodSchema where
  | noDef
  | strS (checks : List ZodCheck) (minLength maxLength : Option Rat)
      (bagFormat : Option String)
  | numS (checks : List ZodCheck)
  | intS (checks : List ZodCheck)
  | boolS
  | litS (values : List JVal)
  | enumS (values options : Option (List String)) (entries : List (String × String))
  | arrS (element : Option ZodSchema) (exactLength minLength maxLength : Option Rat)
  | objS (shape : List (String × ZodSchema))
  | optS (inner : ZodSchema)
  | nullableS (inner : ZodSchema)
  | defaultS (inner : ZodSchema) (defaultValue : JVal)
  | unionS (options : List ZodSchema)
  | interS (left right : ZodSchema)
  | recordS (valueType : Option ZodSchema)
  | tupleS (items : List ZodSchema) (rest : Option ZodSchema)
  | pipeS (out : ZodSchema)
  | transformS (schema : ZodSchema)
  | anyS
  | unknownS
  | voidS
  | nullS
  | undefS
  | dateS
  | bigintS
  | setS (valueType : ZodSchema)
  | mapS (valueType : ZodSchema)
  | unrecognized (tag : String)

/-- The `def.type` tag string of a node, `none` when the definition object
is missing (reading `propDef?.type` then yields `undefined`). -/
def defTag : ZodSchema → Option String
  | .noDef => none
  | .strS .. => some "string"
  | .numS _ => some "number"
  | .intS _ => some "integer"
  | .boolS => some "boolean"
  | .litS _ => some "literal"
  | .enumS .. => some "enum"
  | .arrS .. => some "array"
  | .objS _ => some "object"
  | .optS _ => some "optional"
  | .nullableS _ => some "nullable"
  | .defaultS .. => some "default"
  | .unionS _ => some "union"
  | .interS .. => some "intersection"
  | .recordS _ => some "record"
  | .tupleS .. => some "tuple"
  | .pipeS _ => some "pipe"
  | .transformS _ => some "transform"
  | .anyS => some "any"
  | .unknownS => some "unknown"
  | .voidS => some "void"
  | .nullS => some "null"
  | .undefS => some "undefined"
  | .dateS => some "date"
  | .bigintS => some "bigint"
  | .setS _ => some "set"
  | .mapS _ => some "map"
  | .unrecognized tag => some tag

/-- Set `base.format` and then `base.example`, as every recognised string
format branch does. -/
def setFormatExample (base : JVal) (fmt ex : String) : JVal :=
  jset (jset base "format" (.str fmt)) "example" (.str ex)

/-- The recognised string-format dispatch shared by the nested-def check,
the top-level `format` property, and the legacy `kind` switch. -/
def applyStringFormat (base : JVal) (fmt : String) : JVal :=
  if fmt = "email" then setFormatExample base "email" "user@example.com"
  else if fmt = "url" then setFormatExample base "uri" "https://example.com"
  else if fmt = "uuid" then
    setFormatExample base "uuid" "123e4567-e89b-12d3-a456-426614174000"
  else if fmt = "datetime" then
    setFormatExample base "date-time" "2023-12-25T10:30:00Z"
  else if fmt = "date" then setFormatExample base "date" "2023-12-25"
  else if fmt = "time" then setFormatExample base "time" "10:30:00"
  else base

/-- Which format the nested check def selects, following the source's
`checkDef.format === f || checkDef.check === f` cascade. -/
def nestedFormatTag (d : NestedCheckDef) : Option String :=
  if d.format = some "email" ∨ d.check = some "email" then some "email"
  else if d.format = some "url" ∨ d.check = some "url" then some "url"
  else if d.format = some "uuid" ∨ d.check = some "uuid" then some "uuid"
  else if d.format = some "datetime" ∨ d.check = some "datetime" then some "datetime"
  else if d.format = some "date" ∨ d.check = some "date" then some "date"
  else if d.format = some "time" ∨ d.check = some "time" then some "time"
  else none

/-- Processing of one check in the string branch. -/
def applyStrCheck (b : JVal) (check : ZodCheck) : JVal :=
  let b := match check.nestedDef with
    | some d =>
      match nestedFormatTag d with
      | some f => applyStringFormat b f
      | none => b
    | none => b
  let b := match check.format with
    | some f => applyStringFormat b f
    | none => b
  let b := match check.minLength with
    | some n => jset b "minLength" (.num n)
    | none => b
  let b := match check.maxLength with
    | some n => jset b "maxLength" (.num n)
    | none => b
  match check.kind with
  | some k =>
    if k = "min" then
      match check.value with
      | some v => jset b "minLength" (.num v)
      | none => b
    else if k = "max" then
      match check.value with
      | some v => jset b "maxLength" (.num v)
      | none => b
    else if k = "email" ∨ k = "url" ∨ k = "uuid" ∨ k = "datetime" ∨ k = "date" ∨
        k = "time" then
      applyStringFormat b k
    else if k = "regex" then
      match check.regex with
      | some r => jset b "pattern" (.str r)
      | none => b
    else b
  | none => b

/-- The string branch of the translator. -/
def translateString (checks : List ZodCheck) (minL maxL : Option Rat)
    (bagFormat : Option String) : JVal :=
  let b : JVal := .obj [("type", .str "string"), ("example", .str "string")]
  let b := match minL with
    | some n => jset b "minLength" (.num n)
    | none => b
  let b := match maxL with
    | some n => jset b "maxLength" (.num n)
    | none => b
  let b := checks.foldl applyStrCheck b
  match bagFormat with
  | some f =>
    if f = "email" then setFormatExample b "email" "user@example.com" else b
  | none => b

/-- Promote the base schema to the integer type, as the integer-marking
checks do. -/
def setIntegerType (b : JVal) : JVal :=
  jset (jset b "type" (.str "integer")) "example" (.num 123)

/-- Processing of one check in the number branch.  Note: the safe-integer
sentinel test guards only the structured `minValue`/`maxValue` properties;
the legacy `kind` switch sets `minimum`/`maximum` unconditionally. -/
def applyNumCheck (b : JVal) (check : ZodCheck) : JVal :=
  let b := if check.isInt = some true then setIntegerType b else b
  let b := if check.format = some "safeint" then setIntegerType b else b
  let b := match check.minValue with
    | some v => if v > -9007199254740991 then jset b "minimum" (.num v) else b
    | none => b
  let b := match check.maxValue with
    | some v => if v < 9007199254740991 then jset b "maximum" (.num v) else b
    | none => b
  let b := match check.nestedDef with
    | some d =>
      if d.format = some "safeint" ∨ d.check = some "int" then setIntegerType b else b
    | none => b
  match check.kind with
  | some k =>
    if k = "min" then
      match check.value with
      | some v =>
        let b := jset b "minimum" (.num v)
        if check.inclusive = some true then b
        else jset b "exclusiveMinimum" (.bool true)
      | none => b
    else if k = "max" then
      match check.value with
      | some v =>
        let b := jset b "maximum" (.num v)
        if check.inclusive = some true then b
        else jset b "exclusiveMaximum" (.bool true)
      | none => b
    else if k = "int" then setIntegerType b
    else if k = "multipleOf" then
      match check.value with
      | some v => jset b "multipleOf" (.num v)
      | none => b
    else b
  | none => b

/-- The number branch of the translator. -/
def translateNumber (checks : List ZodCheck) : JVal :=
  checks.foldl applyNumCheck
    (.obj [("type", .str "number"), ("example", .num (123.45 : Rat))])

/-- Processing of one check in the dedicated integer branch (legacy `kind`
checks only, with no sentinel suppression). -/
def applyIntCheck (b : JVal) (check : ZodCheck) : JVal :=
  match check.kind with
  | some k =>
    if k = "min" then
      match check.value with
      | some v =>
        let b := jset b "minimum" (.num v)
        if check.inclusive = some true then b
        else jset b "exclusiveMinimum" (.bool true)
      | none => b
    else if k = "max" then
      match check.value with
      | some v =>
        let b := jset b "maximum" (.num v)
        if check.inclusive = some true then b
        else jset b "exclusiveMaximum" (.bool true)
      | none => b
    else if k = "multipleOf" then
      match check.value with
      | some v => jset b "multipleOf" (.num v)
      | none => b
    else b
  | none => b

/-- The integer branch of the translator. -/
def translateInt (checks : List ZodCheck) : JVal :=
  checks.foldl applyIntCheck
    (.obj [("type", .str "integer"), ("example", .num 123)])

/-- JavaScript property access `p.example`: `undefined` when absent. -/
def exampleField (p : JVal) : JVal :=
  Option.getD (jget p "example") JVal.undef

/-- The example of a translated property when it passes the source's
`prop.example !== undefined` test. -/
def definedExample (p : JVal) : Option JVal :=
  match jget p "example" with
  | none => none
  | some .undef => none
  | some v => some v

/-- The literal branch of the translator. -/
def translateLiteral (values : List JVal) : JVal :=
  match values.head? with
  | some (.str s) =>
    .obj [("type", .str "string"), ("enum", .arr [.str s]), ("example", .str s)]
  | some (.num n) =>
    .obj [("type", .str "number"), ("enum", .arr [.num n]), ("example", .num n)]
  | some (.bool b) =>
    .obj [("type", .str "boolean"), ("enum", .arr [.bool b]), ("example", .bool b)]
  | some v => .obj [("const", v), ("example", v)]
  | none => .obj [("const", .undef), ("example", .undef)]

/-- The enum branch: `def.values || def.options || Object.values(def.entries)`. -/
def translateEnum (values options : Option (List String))
    (entries : List (String × String)) : JVal :=
  let vals : List String := match values with
    | some v => v
    | none =>
      match options with
      | some o => o
      | none => entries.map (fun kv => kv.2)
  let ex := match vals.head? with
    | some v => if v = "" then "option" else v
    | none => "option"
  .obj [("type", .str "string"), ("enum", .arr (vals.map .str)), ("example", .str ex)]

/-- The array branch after the item schema is known: set `items` and the
item example, then either the exact-length pair or the independent
`minItems`/`maxItems` constraints. -/
def arrayResult (itemSchema : JVal) (exact minL maxL : Option Rat) : JVal :=
  let b : JVal := .obj [("type", .str "array"), ("items", itemSchema),
    ("example", .arr [exampleField itemSchema])]
  match exact with
  | some v => jset (jset b "minItems" (.num v)) "maxItems" (.num v)
  | none =>
    let b := match minL with
      | some v => jset b "minItems" (.num v)
      | none => b
    match maxL with
    | some v => jset b "maxItems" (.num v)
    | none => b

mutual

/-- `zodSchemaToOpenAPISchema` from `zod-to-openapi.ts`.  In the array
branch a missing `element` makes the source fall back to `def.type`, which
is the tag string `"array"`; translating that string finds no definition
object, so the model recurses on `noDef` in that case. -/
def translate : ZodSchema → JVal
  | .noDef => .obj [("type", .str "object"), ("example", .obj [])]
  | .strS checks minL maxL bag => translateString checks minL maxL bag
  | .numS checks => translateNumber checks
  | .intS checks => translateInt checks
  | .boolS => .obj [("type", .str "boolean"), ("example", .bool true)]
  | .litS values => translateLiteral values
  | .enumS values options entries => translateEnum values options entries
  | .arrS (some e) exact minL maxL => arrayResult (translate e) exact minL maxL
  | .arrS none exact minL maxL => arrayResult (translate .noDef) exact minL maxL
  | .objS shape =>
    let properties := translateShape shape
    let required := (shape.filter (fun kv =>
      !(defTag kv.2 == some "optional") && !(defTag kv.2 == some "default"))).map (·.1)
    let result : JVal := .obj [("type", .str "object"), ("properties", .obj properties)]
    let result := if required.isEmpty then result
      else jset result "required" (.arr (required.map .str))
    let exampleFields := properties.filterMap
      (fun kv => (definedExample kv.2).map (fun e => (kv.1, e)))
    if exampleFields.isEmpty then result else jset result "example" (.obj exampleFields)
  | .optS inner => jset (translate inner) "nullable" (.bool true)
  | .nullableS inner => jset (translate inner) "nullable" (.bool true)
  | .defaultS inner dv => jset (translate inner) "default" dv
  | .unionS options => .obj [("anyOf", .arr (translateList options))]
  | .interS l r => .obj [("allOf", .arr [translate l, translate r])]
  | .recordS valueType =>
    let valueSchema := match valueType with
      | some v => translate v
      | none => .obj [("type", .str "string"), ("example", .str "value")]
    .obj [("type", .str "object"), ("additionalProperties", valueSchema),
      ("example", .obj [("key", exampleField valueSchema)])]
  | .tupleS items rest =>
    let its := translateList items
    let itemsVal : JVal := match its with
      | [single] => single
      | _ => .obj [("anyOf", .arr its)]
    let result : JVal := .obj [("type", .str "array"), ("items", itemsVal),
      ("minItems", .num (its.length : Rat)), ("maxItems", .num (its.length : Rat)),
      ("example", .arr (its.map exampleField))]
    match rest with
    | some r => jdelete (jset result "additionalItems" (translate r)) "maxItems"
    | none => result
  | .pipeS o => translate o
  | .transformS s => translate s
  | .anyS => .obj [("example", .str "any value")]
  | .unknownS => .obj [("example", .str "unknown value")]
  | .voidS => .obj [("type", .str "null")]
  | .nullS => .obj [("type", .str "null"), ("example", .null)]
  | .undefS => .obj [("type", .str "null"), ("example", .null)]
  | .dateS => .obj [("type", .str "string"), ("format", .str "date-time"),
      ("example", .str "2023-12-25T10:30:00Z")]
  | .bigintS => .obj [("type", .str "integer"), ("format", .str "int64"),
      ("example", .num 9223372036854775807)]
  | .setS valueType =>
    let itemSchema := translate valueType
    .obj [("type", .str "array"), ("items", itemSchema), ("uniqueItems", .bool true),
      ("example", .arr [exampleField itemSchema])]
  | .mapS valueType =>
    let valueSchema := translate valueType
    .obj [("type", .str "object"), ("additionalProperties", valueSchema),
      ("example", .obj [("key", exampleField valueSchema)])]
  | .unrecognized _ => .obj [("type", .str "object"), ("example", .obj [])]

/-- Translation of a list of option/item schemas, in order. -/
def translateList : List ZodSchema → List JVal
  | [] => []
  | s :: rest => translate s :: translateList rest

/-- Translation of an object shape, keeping the declared field order. -/
def translateShape : List (String × ZodSchema) → List (String × JVal)
  | [] => []
  | (k, v) :: rest => (k, translate v) :: translateShape rest

end

example : mergePaths ["/api/".data, "/tasks".data] = "/api/tasks".data := by decide

example : mergePaths ["api".data, "tasks".data] = "/api/tasks".data := by decide

example : mergePaths ["/api".data, "/tasks/".data] = "/api/tasks".data := by decide

/-! The `YelixHono` application layer: route registration collects endpoint
descriptors; mounting merges a child's descriptors into the parent. -/

/-- The `EndpointDocs` metadata attached by the `openapi(...)` middleware. -/
structure EndpointDocs where
  hide : Option Bool := none
  method : Option JsStr := none
  path : Option JsStr := none
  summary : Option JsStr := none
  description : Option JsStr := none
  tags : Option (List JsStr) := none
  responses : Option JVal := none

/-- One handler entry of a route registration: either a plain function
(`isYelix = false`, no name) or a `YelixHonoMiddleware` carrying metadata
(`_yelixKeys`, the `openapi` docs, or a validator's `from`/`schema`). -/
structure MW where
  isYelix : Bool := false
  name : Option JsStr := none
  yelixKeys : List String := []
  endpointDocs : Option EndpointDocs := none
  vFrom : Option String := none
  vSchema : Option JVal := none

/-- JavaScript `a || b` on strings: an empty (falsy) or absent left operand
falls through to the default. -/
def jsOrStr (o : Option JsStr) (d : JsStr) : JsStr :=
  match o with
  | some s => if s.isEmpty then d else s
  | none => d

/-- A middleware passes the `!!handler?.name` filter. -/
def hasTruthyName (m : MW) : Bool :=
  match m.name with
  | some s => !s.isEmpty
  | none => false

/-- The private `getMiddlewareByKey`: first `YelixHonoMiddleware` instance
whose `_yelixKeys` contains the key. -/
def getMiddlewareByKey (key : String) (hs : List MW) : Option MW :=
  (hs.filter (fun m => m.isYelix)).find? (fun m => m.yelixKeys.contains key)

/-- The private `getMiddlewaresByKey`: all named middlewares whose
`_yelixKeys` contains the key. -/
def getMiddlewaresByKey (key : String) (hs : List MW) : List MW :=
  (hs.filter hasTruthyName).filter (fun m => m.yelixKeys.contains key)

/-- One endpoint descriptor (the `EndpointBuilder` of `@yelix/openapi` as
`loadEndpointDocs` fills it: method, path, summary, description, tags, and
optionally responses, request body and raw parameters). -/
structure Endpoint where
  method : JsStr
  path : JsStr
  summary : JsStr
  description : JsStr
  tags : List JsStr
  responses : Option JVal := none
  requestBody : Option JVal := none
  parameters : List JVal := []

/-- The accumulator of the request-validation loop in `loadEndpointDocs`. -/
structure ValState where
  haveJson : Bool := false
  json : JVal := .obj []
  haveParameter : Bool := false
  parameters : List JVal := []

/-- One iteration of the request-validation loop: `json`/`form` schemas are
shallow-merged into the request body, array schemas from
`query`/`header`/`cookie`/`path`/`param` are appended to the parameters,
anything else is logged and skipped. -/
def applyValidation (st : ValState) (rv : MW) : ValState :=
  match rv.vFrom with
  | some f =>
    if f = "json" ∨ f = "form" then
      { st with
        haveJson := true
        json := match rv.vSchema with
          | some s => jsAssign st.json s
          | none => st.json }
    else if f = "query" ∨ f = "header" ∨ f = "cookie" ∨ f = "path" ∨ f = "param" then
      { st with
        haveParameter := true
        parameters := match rv.vSchema with
          | some (.arr ps) => st.parameters ++ ps
          | _ => st.parameters }
    else st
  | none => st

/-- The private `loadEndpointDocs` of `YelixHono` (main snapshot): find the
`openapi` middleware, fold the validators, drop the endpoint when the docs
say `hide`, otherwise normalise the path, default the summary to
`"<METHOD> <path>"` and push one descriptor.  The responses transform only
re-wraps caller-supplied response content and is carried through opaquely. -/
def loadEndpointDocs (endpoints : List Endpoint) (path method : JsStr)
    (hs : List MW) : List Endpoint :=
  let openapiMw := getMiddlewareByKey "openapi" hs
  let endpointDocs := openapiMw.bind (fun m => m.endpointDocs)
  let validations := getMiddlewaresByKey "requestValidation" hs
  let st := validations.foldl applyValidation {}
  if endpointDocs.bind (fun d => d.hide) = some true then endpoints
  else
    let openapiFriendlyPath := convertColonRoutesToBraces
      (jsOrStr (endpointDocs.bind (fun d => d.path)) path)
    let method' := jsOrStr (endpointDocs.bind (fun d => d.method)) method
    let summ := jsOrStr (endpointDocs.bind (fun d => d.summary))
      (jsToUpper method' ++ ' ' :: path)
    let e : Endpoint := {
      method := jsOrStr (endpointDocs.bind (fun d => d.method)) method'
      path := openapiFriendlyPath
      summary := summ
      description := jsOrStr (endpointDocs.bind (fun d => d.description)) []
      tags := (endpointDocs.bind (fun d => d.tags)).getD []
      responses := endpointDocs.bind (fun d => d.responses)
      requestBody := if st.haveJson then some st.json else none
      parameters := if st.haveParameter then st.parameters else [] }
    endpoints ++ [e]

/-- An operation recorded against the underlying Hono router. -/
inductive HonoOp where
  | register (method path : JsStr)
  | mount (path : JsStr)

/-- The state of the stored `OpenAPI` instance (`this.__openapi`). -/
structure OpenAPIInst where
  title : String := "Yelix Hono API"
  description : String := "Yelix Hono API Documentation"
  version : String := "1.0.0"
  endpoints : List Endpoint := []

/-- The observable state of a `YelixHono` application: its `__openapi`
instance, its `__endpoints` collection, and the operations issued to the
wrapped Hono router. -/
structure YelixApp where
  openapi : OpenAPIInst := {}
  endpoints : List Endpoint := []
  honoOps : List HonoOp := []

/-- A verb method (`get`, `post`, ..., `on`): `loadEndpointDocs` first,
then the route is registered with the underlying Hono router regardless of
what the documentation step did. -/
def registerRoute (app : YelixApp) (method path : JsStr) (hs : List MW) : YelixApp :=
  { app with
    endpoints := loadEndpointDocs app.endpoints path method hs
    honoOps := app.honoOps ++ [.register method path] }

/-- The `route` method for a `YelixHono` child.  Each child descriptor is
rewritten in place (`endpoint.setPath(...)` mutates the shared
`EndpointBuilder` object) and the same descriptors are then appended to the
parent's `__endpoints`; the function returns the post-mount states of both
the parent and the child, whose own collection now holds the rewritten
descriptors. -/
def route (parent : YelixApp) (path : JsStr) (child : YelixApp) :
    YelixApp × YelixApp :=
  let rewritten := child.endpoints.map (fun e =>
    { e with path := convertColonRoutesToBraces (mergePaths [path, e.path]) })
  ({ parent with
      endpoints := parent.endpoints ++ rewritten
      honoOps := parent.honoOps ++ [.mount path] },
    { child with endpoints := rewritten })

/-- Modelled from the spec: the `OpenAPI` class of `@yelix/openapi` is not
part of this repository; per §4.5 `addEndpoints` appends the given
descriptors to the instance's own collection. -/
def addEndpoints (inst : OpenAPIInst) (es : List Endpoint) : OpenAPIInst :=
  { inst with endpoints := inst.endpoints ++ es }

/-- Modelled from the spec: the operation object assembled for one
descriptor (summary, description, tags, parameters, and the optional
request body and responses). -/
def endpointOperation (e : Endpoint) : JVal :=
  let o : JVal := .obj [("summary", .str (String.mk e.summary)),
    ("description", .str (String.mk e.description)),
    ("tags", .arr (e.tags.map (fun t => .str (String.mk t)))),
    ("parameters", .arr e.parameters)]
  let o := match e.requestBody with
    | some rb => jset o "requestBody" rb
    | none => o
  match e.responses with
  | some rs => jset o "responses" rs
  | none => o

/-- Modelled from the spec: `getJSON` of `@yelix/openapi` is not part of
this repository; per §4.5 it is a pure fold grouping the descriptors by
path and then by method under an `info` header. -/
def getJSONm (inst : OpenAPIInst) : JVal :=
  let paths := inst.endpoints.foldl (fun acc e =>
    let entry := (jget acc (String.mk e.path)).getD (.obj [])
    jset acc (String.mk e.path) (jset entry (String.mk e.method) (endpointOperation e)))
    (.obj [])
  .obj [("openapi", .str "3.0.0"),
    ("info", .obj [("title", .str inst.title), ("description", .str inst.description),
      ("version", .str inst.version)]),
    ("paths", paths)]

/-- The `getOpenAPI` method (main snapshot): shallow-copy the stored
`OpenAPI` instance, add `this.__endpoints` to the copy, and render the
document.  The pair returns the document together with the application
state after the call, so that any mutation would be observable. -/
def getOpenAPI (app : YelixApp) : JVal × YelixApp :=
  let clone := app.openapi
  let clone := addEndpoints clone app.endpoints
  (getJSONm clone, app)

/-! Supporting lemmas for the claims. -/

theorem jget_jset_ne {k' k : String} (h : k' ≠ k) (o v : JVal) :
    jget (jset o k' v) k = jget o k := by
  cases o with
  | obj fs => exact jget_jset_other h fs v
  | _ => rfl

theorem translateShape_keys (shape : List (String × ZodSchema)) :
    (translateShape shape).map (fun kv => kv.1) = shape.map (fun kv => kv.1) := by
  induction shape with
  | nil => simp [translateShape]
  | cons kv rest ih =>
    obtain ⟨k, v⟩ := kv
    simp [translateShape, ih]

/-- Specification-side required list of an object shape: the keys whose
node tag is neither `optional` nor `default`. -/
def requiredKeysSpec (shape : List (String × ZodSchema)) : List String :=
  (shape.filter (fun kv =>
    decide (defTag kv.2 ≠ some "optional" ∧ defTag kv.2 ≠ some "default"))).map
    (fun kv => kv.1)

theorem requiredKeysSpec_eq_filter (shape : List (String × ZodSchema)) :
    requiredKeysSpec shape = (shape.filter (fun kv =>
      !(defTag kv.2 == some "optional") && !(defTag kv.2 == some "default"))).map
      (fun kv => kv.1) := by
  unfold requiredKeysSpec
  congr 1
  apply List.filter_congr
  intro kv _
  by_cases h1 : defTag kv.2 = some "optional" <;>
    by_cases h2 : defTag kv.2 = some "default" <;> simp [h1, h2]

theorem mem_shape_of_mem_requiredKeysSpec {shape : List (String × ZodSchema)}
    {k : String} (h : k ∈ requiredKeysSpec shape) :
    k ∈ shape.map (fun kv => kv.1) := by
  unfold requiredKeysSpec at h
  rcases List.mem_map.1 h with ⟨kv, hkv, rfl⟩
  exact List.mem_map.2 ⟨kv, (List.mem_filter.1 hkv).1, rfl⟩

/-- Every endpoint produced by `loadEndpointDocs` is either one of the
previous descriptors or a fresh one whose path is a colon-to-brace
conversion image. -/
theorem loadEndpointDocs_mem (eps : List Endpoint) (path method : JsStr)
    (hs : List MW) :
    ∀ e ∈ loadEndpointDocs eps path method hs,
      e ∈ eps ∨ ∃ q, e.path = convertColonRoutesToBraces q := by
  intro e he
  by_cases h : ((getMiddlewareByKey "openapi" hs).bind
      (fun m => m.endpointDocs)).bind (fun d => d.hide) = some true
  · simp only [loadEndpointDocs] at he
    rw [if_pos h] at he
    exact Or.inl he
  · simp only [loadEndpointDocs] at he
    rw [if_neg h] at he
    rcases List.mem_append.1 he with h1 | h1
    · exact Or.inl h1
    · rcases List.mem_singleton.1 h1 with rfl
      exact Or.inr ⟨_, rfl⟩

/-- Every endpoint descriptor of an application is in OpenAPI brace
syntax. -/
def endpointsBraceOnly (app : YelixApp) : Prop :=
  ∀ e ∈ app.endpoints, noColonParams e.path = true

/-! Concrete fixtures used by counterexamples and witnesses. -/

/-- A child application's single endpoint descriptor: `GET /ping`. -/
def pingEndpoint : Endpoint :=
  { method := "get".data, path := "/ping".data, summary := "GET /ping".data,
    description := [], tags := [] }

/-- A child application with the one `GET /ping` descriptor. -/
def appB : YelixApp := { endpoints := [pingEndpoint] }

/-- Documentation descriptor with `hide: true`. -/
def hideDocs : EndpointDocs := { hide := some true }

/-- The `openapi(...)` middleware carrying `hideDocs`. -/
def hideMw : MW :=
  { isYelix := true, name := some "openapi".data, yelixKeys := ["openapi"],
    endpointDocs := some hideDocs }

/-- Documentation descriptor that supplies no summary. -/
def plainDocs : EndpointDocs := { tags := some ["tasks".data] }

/-- The `openapi(...)` middleware carrying `plainDocs`. -/
def plainDocsMw : MW :=
  { isYelix := true, name := some "openapi".data, yelixKeys := ["openapi"],
    endpointDocs := some plainDocs }

/-- The legacy sentinel min check used by the C7 counterexample. -/
def sentinelMinCheck : ZodCheck :=
  { kind := some "min", value := some (-9007199254740991 : Rat), inclusive := some true }

/-! Claim theorems. -/

/-- C1 (counterexample): the claim says the child's descriptors keep their
pre-mount paths after `A.route(p, B)`.  On the code, mounting `appB` (one
descriptor with path `/ping`) at `/svc` leaves the child's own collection
holding the merged path `/svc/ping`, because `route` calls
`endpoint.setPath` on the child's own descriptor objects. -/
theorem C1_route_counterexample :
    (route {} "/svc".data appB).2.endpoints.map (fun e => e.path)
        = ["/svc/ping".data] ∧
    appB.endpoints.map (fun e => e.path) = ["/ping".data] ∧
    (["/svc/ping".data] : List JsStr) ≠ ["/ping".data] :=
  ⟨by decide, by decide, by decide⟩

/-- C1 (amended): `A.route(p, B)` rewrites each of B's endpoint descriptors
in place to the brace-normalised merge of `p` with its path and appends
those same (shared, not copied) descriptors to A's collection; afterwards
B's own collection holds exactly the rewritten descriptors. -/
theorem C1_route_rewrites_in_place (parent child : YelixApp) (p : JsStr) :
    (route parent p child).1.endpoints
        = parent.endpoints ++ child.endpoints.map (fun e =>
            { e with path := convertColonRoutesToBraces (mergePaths [p, e.path]) }) ∧
    (route parent p child).2.endpoints
        = child.endpoints.map (fun e =>
            { e with path := convertColonRoutesToBraces (mergePaths [p, e.path]) }) :=
  ⟨rfl, rfl⟩

/-- C2 (counterexample): the claimed algorithm (split on `/`, discard empty
segments, rejoin, one leading slash) disagrees with the code on a fragment
containing whitespace: the code trims `"/api /"` to `/api/tasks`, the
claimed algorithm would keep the segment `"api "`. -/
theorem C2_counterexample :
    mergePaths ["/api /".data, "/tasks".data] = "/api/tasks".data ∧
    mergeMountPathClaim "/api /".data "/tasks".data = "/api /tasks".data ∧
    ("/api/tasks".data : JsStr) ≠ "/api /tasks".data :=
  ⟨by decide, by decide, by decide⟩

/-- C2 (amended): the three concrete merges all give `/api/tasks`, and in
general the merge splits both fragments on `/`, trims each segment,
discards segments that are empty after trimming, rejoins with single `/`
and prefixes exactly one leading `/`. -/
theorem C2_mergeMountPath_amended :
    mergePaths ["/api/".data, "/tasks".data] = "/api/tasks".data ∧
    mergePaths ["api".data, "tasks".data] = "/api/tasks".data ∧
    mergePaths ["/api".data, "/tasks/".data] = "/api/tasks".data ∧
    ∀ a b : JsStr, mergePaths [a, b] = mergeMountPathTrimmed a b :=
  ⟨by decide, by decide, by decide, mergePaths_two_spec⟩

/-- C3: assembling the OpenAPI document is a pure, idempotent read: it
leaves the application state (in particular the `__endpoints` collection)
unchanged, and a second call returns the same document. -/
theorem C3_getOpenAPI_pure_idempotent (app : YelixApp) :
    (getOpenAPI app).2 = app ∧
    (getOpenAPI app).2.endpoints = app.endpoints ∧
    (getOpenAPI ((getOpenAPI app).2)).1 = (getOpenAPI app).1 :=
  ⟨rfl, rfl, rfl⟩

/-- C4: when the attached documentation descriptor has `hide = true`, no
endpoint descriptor is added (so the assembled document is unchanged),
while the route is still registered with the underlying Hono router. -/
theorem C4_hidden_route_excluded (app : YelixApp) (method path : JsStr)
    (hs : List MW)
    (h : ((getMiddlewareByKey "openapi" hs).bind (fun m => m.endpointDocs)).bind
        (fun d => d.hide) = some true) :
    (registerRoute app method path hs).endpoints = app.endpoints ∧
    (getOpenAPI (registerRoute app method path hs)).1 = (getOpenAPI app).1 ∧
    (registerRoute app method path hs).honoOps
        = app.honoOps ++ [.register method path] := by
  have hload : loadEndpointDocs app.endpoints path method hs = app.endpoints := by
    simp only [loadEndpointDocs]
    rw [if_pos h]
  refine ⟨?_, ?_, rfl⟩
  · simp [registerRoute, hload]
  · simp [getOpenAPI, registerRoute, hload]

/-- C4 (witness): a concrete hidden registration on the empty application. -/
theorem C4_hidden_route_excluded_witness :
    (((getMiddlewareByKey "openapi" [hideMw]).bind (fun m => m.endpointDocs)).bind
        (fun d => d.hide) = some true) ∧
    ((registerRoute {} "get".data "/secret".data [hideMw]).endpoints
        = ({} : YelixApp).endpoints ∧
      (getOpenAPI (registerRoute {} "get".data "/secret".data [hideMw])).1
        = (getOpenAPI ({} : YelixApp)).1 ∧
      (registerRoute {} "get".data "/secret".data [hideMw]).honoOps
        = ({} : YelixApp).honoOps ++ [.register "get".data "/secret".data]) :=
  ⟨rfl, C4_hidden_route_excluded {} "get".data "/secret".data [hideMw] rfl⟩

/-- C5: the schema translator is total — it returns a value for every node
— and a missing definition object or an unrecognized tag yields exactly
`{type: "object", example: {}}`. -/
theorem C5_translator_total_fallback :
    (∀ s : ZodSchema, ∃ v : JVal, translate s = v) ∧
    translate .noDef = .obj [("type", .str "object"), ("example", .obj [])] ∧
    ∀ tag : String, translate (.unrecognized tag)
        = .obj [("type", .str "object"), ("example", .obj [])] :=
  ⟨fun s => ⟨translate s, rfl⟩, by simp [translate], fun tag => by simp [translate]⟩

/-- C6: for an object node, `required` is exactly the shape keys whose tag
is neither `optional` nor `default` (omitted entirely when that list is
empty), `properties` holds one translated schema per shape key in order, and
every required key is a properties key. -/
theorem C6_object_required_exact (shape : List (String × ZodSchema)) :
    jget (translate (.objS shape)) "required"
        = (if requiredKeysSpec shape = [] then none
           else some (.arr ((requiredKeysSpec shape).map JVal.str))) ∧
    jget (translate (.objS shape)) "properties" = some (.obj (translateShape shape)) ∧
    (translateShape shape).map (fun kv => kv.1) = shape.map (fun kv => kv.1) ∧
    ∀ k ∈ requiredKeysSpec shape, k ∈ (translateShape shape).map (fun kv => kv.1) := by
  have hrk := requiredKeysSpec_eq_filter shape
  have hne1 : ("example" : String) ≠ "required" := by decide
  have hne2 : ("example" : String) ≠ "properties" := by decide
  have hne3 : ("required" : String) ≠ "properties" := by decide
  refine ⟨?_, ?_, translateShape_keys shape, ?_⟩
  · simp only [translate]
    rw [hrk]
    split
    · split
      · rename_i h1 h2
        rw [List.isEmpty_iff.1 h2]
        simp [jget, lookupField]
      · rename_i h1 h2
        rw [if_neg (by simpa [List.isEmpty_iff] using h2)]
        exact jget_jset_same _ _ _
    · rename_i h1
      rw [jget_jset_ne hne1]
      split
      · rename_i h2
        rw [List.isEmpty_iff.1 h2]
        simp [jget, lookupField]
      · rename_i h2
        rw [if_neg (by simpa [List.isEmpty_iff] using h2)]
        exact jget_jset_same _ _ _
  · simp only [translate]
    split
    · split
      · simp [jget, lookupField]
      · rw [jget_jset_ne hne3]
        simp [jget, lookupField]
    · rw [jget_jset_ne hne2]
      split
      · simp [jget, lookupField]
      · rw [jget_jset_ne hne3]
        simp [jget, lookupField]
  · intro k hk
    rw [translateShape_keys shape]
    exact mem_shape_of_mem_requiredKeysSpec hk

/-- C7 (counterexample): the claim says a min check whose value is the
sentinel `-9007199254740991` produces no `minimum` field; but a legacy
`kind: "min"` check with that value does set `minimum` (the sentinel test
guards only the structured `minValue` property). -/
theorem C7_counterexample :
    jget (translate (.numS [sentinelMinCheck])) "minimum"
        = some (.num (-9007199254740991 : Rat)) := by
  simp [sentinelMinCheck, translate, translateNumber, applyNumCheck, jget, jset,
    setField, lookupField]

/-- C7 (amended): a structured `minValue`/`maxValue` check sets
`minimum`/`maximum` only when the value is strictly inside the safe-integer
sentinel and never sets the exclusive flags; a legacy `kind` min/max check
sets `minimum`/`maximum` unconditionally and sets
`exclusiveMinimum`/`exclusiveMaximum` exactly when its `inclusive` flag is
not `true`. -/
theorem C7_min_max_amended (v : Rat) (incl : Option Bool) :
    jget (translate (.numS [{ minValue := some v }])) "minimum"
        = (if v > -9007199254740991 then some (.num v) else none) ∧
    jget (translate (.numS [{ minValue := some v }])) "exclusiveMinimum" = none ∧
    jget (translate (.numS [{ maxValue := some v }])) "maximum"
        = (if v < 9007199254740991 then some (.num v) else none) ∧
    jget (translate (.numS [{ maxValue := some v }])) "exclusiveMaximum" = none ∧
    jget (translate (.numS [{ kind := some "min", value := some v, inclusive := incl }]))
        "minimum" = some (.num v) ∧
    jget (translate (.numS [{ kind := some "min", value := some v, inclusive := incl }]))
        "exclusiveMinimum" = (if incl = some true then none else some (.bool true)) ∧
    jget (translate (.numS [{ kind := some "max", value := some v, inclusive := incl }]))
        "maximum" = some (.num v) ∧
    jget (translate (.numS [{ kind := some "max", value := some v, inclusive := incl }]))
        "exclusiveMaximum" = (if incl = some true then none else some (.bool true)) := by
  refine ⟨?_, ?_, ?_, ?_, ?_, ?_, ?_, ?_⟩
  · by_cases h : v > -9007199254740991 <;>
      simp [translate, translateNumber, applyNumCheck, jget, jset, setField,
        lookupField, h]
  · by_cases h : v > -9007199254740991 <;>
      simp [translate, translateNumber, applyNumCheck, jget, jset, setField,
        lookupField, h]
  · by_cases h : v < 9007199254740991 <;>
      simp [translate, translateNumber, applyNumCheck, jget, jset, setField,
        lookupField, h]
  · by_cases h : v < 9007199254740991 <;>
      simp [translate, translateNumber, applyNumCheck, jget, jset, setField,
        lookupField, h]
  · rcases incl with _ | b
    · simp [translate, translateNumber, applyNumCheck, jget, jset, setField,
        lookupField]
    · rcases b <;>
        simp [translate, translateNumber, applyNumCheck, jget, jset, setField,
          lookupField]
  · rcases incl with _ | b
    · simp [translate, translateNumber, applyNumCheck, jget, jset, setField,
        lookupField]
    · rcases b <;>
        simp [translate, translateNumber, applyNumCheck, jget, jset, setField,
          lookupField]
  · rcases incl with _ | b
    · simp [translate, translateNumber, applyNumCheck, jget, jset, setField,
        lookupField]
    · rcases b <;>
        simp [translate, translateNumber, applyNumCheck, jget, jset, setField,
          lookupField]
  · rcases incl with _ | b
    · simp [translate, translateNumber, applyNumCheck, jget, jset, setField,
        lookupField]
    · rcases b <;>
        simp [translate, translateNumber, applyNumCheck, jget, jset, setField,
          lookupField]

/-- C8: when the documentation descriptor supplies no summary (and does not
hide the route), the stored descriptor's summary is the upper-cased
effective method, a space, and the registration path. -/
theorem C8_default_summary (endpoints : List Endpoint) (path method : JsStr)
    (hs : List MW) (docs : EndpointDocs)
    (hdocs : (getMiddlewareByKey "openapi" hs).bind (fun m => m.endpointDocs)
        = some docs)
    (hsum : docs.summary = none)
    (hhide : docs.hide ≠ some true) :
    ∃ e : Endpoint,
      loadEndpointDocs endpoints path method hs = endpoints ++ [e] ∧
      e.summary = jsToUpper (jsOrStr docs.method method) ++ ' ' :: path := by
  simp only [loadEndpointDocs, hdocs, Option.some_bind]
  rw [if_neg hhide]
  refine ⟨_, rfl, ?_⟩
  simp [hsum, jsOrStr]

/-- C8 (witness): a `GET /tasks` registration whose docs carry only tags. -/
theorem C8_default_summary_witness :
    ((getMiddlewareByKey "openapi" [plainDocsMw]).bind (fun m => m.endpointDocs)
        = some plainDocs) ∧
    plainDocs.summary = none ∧
    plainDocs.hide ≠ some true ∧
    ∃ e : Endpoint,
      loadEndpointDocs [] "/tasks".data "get".data [plainDocsMw] = [] ++ [e] ∧
      e.summary = jsToUpper (jsOrStr plainDocs.method "get".data) ++ ' ' :: "/tasks".data :=
  ⟨rfl, rfl, by decide,
    C8_default_summary [] "/tasks".data "get".data [plainDocsMw] plainDocs rfl rfl
      (by decide)⟩

/-- C9 (counterexample): `/api` is itself a merged path, yet merging it
with itself yields `/api/api`, so the binary merge is not idempotent. -/
theorem C9_counterexample :
    mergePaths ["/api".data] = "/api".data ∧
    mergePaths ["/api".data, "/api".data] = "/api/api".data ∧
    ("/api/api".data : JsStr) ≠ "/api".data :=
  ⟨by decide, by decide, by decide⟩

/-- C9 (amended): the merge is associative, and re-merging an
already-merged path (applying the merge to it alone) changes nothing;
merging a path with itself instead duplicates its segments. -/
theorem C9_assoc_remerge :
    (∀ a b c : JsStr,
      mergePaths [mergePaths [a, b], c] = mergePaths [a, mergePaths [b, c]]) ∧
    (∀ a b : JsStr, mergePaths [mergePaths [a, b]] = mergePaths [a, b]) :=
  ⟨mergePaths_assoc, mergePaths_remerge⟩

/-- C10: if every stored descriptor path is brace-syntax (no colon-style
parameter segment), this is preserved by every direct route registration
and by every mount, for both the parent's and the child's collections,
because both storing paths run through the colon-to-brace conversion. -/
theorem C10_brace_syntax_invariant :
    (∀ (app : YelixApp) (method path : JsStr) (hs : List MW),
        endpointsBraceOnly app →
          endpointsBraceOnly (registerRoute app method path hs)) ∧
    (∀ (parent child : YelixApp) (p : JsStr),
        endpointsBraceOnly parent →
          endpointsBraceOnly (route parent p child).1 ∧
          endpointsBraceOnly (route parent p child).2) := by
  constructor
  · intro app method path hs hinv e he
    have he2 : e ∈ loadEndpointDocs app.endpoints path method hs := he
    rcases loadEndpointDocs_mem app.endpoints path method hs e he2 with hmem | ⟨q, hq⟩
    · exact hinv e hmem
    · rw [hq]
      exact noColonParams_convert q
  · intro parent child p hinv
    have hfst : (route parent p child).1.endpoints
        = parent.endpoints ++ child.endpoints.map (fun e =>
            { e with path := convertColonRoutesToBraces (mergePaths [p, e.path]) }) := rfl
    have hsnd : (route parent p child).2.endpoints
        = child.endpoints.map (fun e =>
            { e with path := convertColonRoutesToBraces (mergePaths [p, e.path]) }) := rfl
    constructor
    · intro e he
      rw [hfst] at he
      rcases List.mem_append.1 he with h1 | h1
      · exact hinv e h1
      · rcases List.mem_map.1 h1 with ⟨e0, _, rfl⟩
        exact noColonParams_convert _
    · intro e he
      rw [hsnd] at he
      rcases List.mem_map.1 he with ⟨e0, _, rfl⟩
      exact noColonParams_convert _

/-- C10 (witness): the invariant holds for the empty application and is
kept by a registration whose path uses colon syntax. -/
theorem C10_brace_syntax_invariant_witness :
    endpointsBraceOnly {} ∧
    endpointsBraceOnly (registerRoute {} "get".data "/items/:itemId".data []) :=
  ⟨by simp [endpointsBraceOnly, YelixApp.endpoints],
    C10_brace_syntax_invariant.1 {} "get".data "/items/:itemId".data []
      (by simp [endpointsBraceOnly, YelixApp.endpoints])⟩

end Yelix
